import Mathlib

/-!
Verification of the recipe-management API core logic.

The development shallowly embeds the data model (`recipe/models.py`), the
serializer logic (`recipe/serializers.py`, `core/serializers.py`), the
view-level queryset scoping (`recipe/views.py`) and the central exception
translator (`core/exceptions_handler.py`).  Database state is a record of
lists of rows; the ORM's autoincrement primary keys are modelled by
`nextRecipeId` / `nextIngredientId` counters.
-/

/-- A stored user row (only the primary key matters to the recipe logic;
usernames and password hashes appear in the credential-store section). -/
structure User where
  id : Nat
deriving DecidableEq, Repr

/-- Embeds the `Recipe` model of `recipe/models.py`: primary key, owning
user (`user = models.ForeignKey(...)`), `name` and `description`. -/
structure Recipe where
  id : Nat
  userId : Nat
  name : String
  description : String
deriving DecidableEq, Repr

/-- Embeds the `Ingredient` model of `recipe/models.py`: primary key,
denormalized owning user, `name`, and the owning recipe
(`recipe = models.ForeignKey(Recipe, related_name="ingredients",
on_delete=models.CASCADE)`). -/
structure Ingredient where
  id : Nat
  userId : Nat
  name : String
  recipeId : Nat
deriving DecidableEq, Repr

/-- The relational store: the recipe and ingredient tables plus the
autoincrement counters for their primary keys. -/
structure DB where
  recipes : List Recipe
  ingredients : List Ingredient
  nextRecipeId : Nat
  nextIngredientId : Nat
deriving DecidableEq, Repr

/-- Well-formedness of a database state: primary keys are unique and below
the autoincrement counters (guaranteed by the storage engine). -/
def DB.wf (db : DB) : Prop :=
  (∀ r ∈ db.recipes, r.id < db.nextRecipeId)
  ∧ (db.recipes.map Recipe.id).Nodup
  ∧ (∀ ing ∈ db.ingredients, ing.id < db.nextIngredientId)
  ∧ (db.ingredients.map Ingredient.id).Nodup
  ∧ (∀ ing ∈ db.ingredients, ∃ r ∈ db.recipes, ing.recipeId = r.id)

instance (db : DB) : Decidable db.wf := by
  unfold DB.wf; infer_instance

/-- Errors surfaced by repository writes: the `unique_recipe_name_for_user`
constraint violation of `recipe/models.py` (an `IntegrityError` at the
storage layer) and the ownership-scoped 404 of `recipe/views.py`. -/
inductive RepoError where
  | duplicateName
  | notFound
deriving DecidableEq, Repr

/-- The rows of `recipe.ingredients.all()` for a given recipe: the reverse
foreign-key manager defined by `related_name="ingredients"`. -/
def DB.recipeIngredients (db : DB) (recipeId : Nat) : List Ingredient :=
  db.ingredients.filter (fun ing => ing.recipeId == recipeId)

/-- The fresh rows built by the creation loop at the bottom of
`RecipeSerializer._add_ingredients`: one `Ingredient.objects.create(...)`
per remaining name, with autoincrement ids starting at `nid`. -/
def mkIngredientRows (userId recipeId : Nat) : Nat → List String → List Ingredient
  | _, [] => []
  | nid, n :: ns => ⟨nid, userId, n, recipeId⟩ :: mkIngredientRows userId recipeId (nid + 1) ns

/-- Embeds `RecipeSerializer._add_ingredients(self, ingredients, recipe)`:

* `ingredients_to_create = {ing['name'] for ing in ingredients}` — the
  target names deduplicated into a set (modelled as `List.dedup`);
* `ingredients_in_recipe = {ing.name for ing in recipe.ingredients.all()}`;
* only `if recipe.ingredients.count() > 0`: rows of the recipe whose name
  is not in the target set are deleted, and the target set is narrowed to
  the names not already in the recipe;
* a fresh row is created for each remaining name, owned by the acting
  user (`self.context["request"].user`) and the recipe.

Returns the new state together with the deleted and the created rows. -/
def _add_ingredients (db : DB) (userId recipeId : Nat) (ingredients : List String) :
    DB × List Ingredient × List Ingredient :=
  let ingredients_to_create := ingredients.dedup
  let current := db.recipeIngredients recipeId
  let ingredients_in_recipe := current.map Ingredient.name
  let step :=
    if current.length > 0 then
      (db.ingredients.filter
          (fun ing => !(ing.recipeId == recipeId && !(ingredients_to_create.contains ing.name))),
       current.filter (fun ing => !(ingredients_to_create.contains ing.name)),
       ingredients_to_create.filter (fun n => !(ingredients_in_recipe.contains n)))
    else
      (db.ingredients, [], ingredients_to_create)
  let created := mkIngredientRows userId recipeId db.nextIngredientId step.2.2
  ({ db with
      ingredients := step.1 ++ created,
      nextIngredientId := db.nextIngredientId + created.length },
   step.2.1, created)

/-- The `unique_recipe_name_for_user` constraint of `Recipe.Meta.constraints`
in `recipe/models.py` (`UniqueConstraint(fields=["user", "name"])`): `true`
when inserting `(userId, name)` would violate per-user name uniqueness. -/
def unique_recipe_name_for_user (db : DB) (userId : Nat) (name : String) : Bool :=
  db.recipes.any (fun r => r.userId == userId && r.name == name)

/-- Embeds `RecipeSerializer.create` together with
`RecipeViewSet.perform_create` (which supplies `user=self.request.user`):

* `ingredients = validated_data.pop("ingredients", [])` — an absent field
  defaults to the empty list;
* `super().create(validated_data)` inserts the recipe row; the storage
  engine enforces the `unique_recipe_name_for_user` constraint atomically,
  raising `IntegrityError` (`duplicateName`) without writing anything;
* `if ingredients:` — reconciliation only runs for a non-empty list.

On failure the error carries the state as the transaction left it (here
the insert itself failed, so nothing was written). -/
def RecipeSerializer.create (db : DB) (userId : Nat) (name description : String)
    (ingredients? : Option (List String)) : Except (RepoError × DB) (DB × Recipe) :=
  let ingredients := ingredients?.getD []
  if unique_recipe_name_for_user db userId name then
    .error (.duplicateName, db)
  else
    let recipe : Recipe := ⟨db.nextRecipeId, userId, name, description⟩
    let db1 : DB := { db with
      recipes := db.recipes ++ [recipe],
      nextRecipeId := db.nextRecipeId + 1 }
    if ingredients.isEmpty then
      .ok (db1, recipe)
    else
      .ok ((_add_ingredients db1 userId recipe.id ingredients).1, recipe)

/-- Embeds `RecipeSerializer.update` for a recipe the view has already
resolved (ownership-scoped lookup is part of `updateRecipe` below):

* `ingredients = validated_data.pop("ingredients", None)`;
* `if ingredients is not None: self._add_ingredients(ingredients, instance)`
  — reconciliation runs first, even for an explicit empty list;
* `super().update(instance, validated_data)` then writes the supplied
  fields; saving raises `IntegrityError` (`duplicateName`) when another
  row of the same user already carries the new name.

On failure the error carries the dirty state (reconciliation already
applied) so that the transaction boundary can be studied. -/
def RecipeSerializer.update (db : DB) (userId : Nat) (inst : Recipe)
    (name? description? : Option String) (ingredients? : Option (List String)) :
    Except (RepoError × DB) DB :=
  let db1 := match ingredients? with
    | none => db
    | some ingredients => (_add_ingredients db userId inst.id ingredients).1
  let newName := name?.getD inst.name
  let newDescription := description?.getD inst.description
  if db1.recipes.any
      (fun r => !(r.id == inst.id) && r.userId == userId && r.name == newName) then
    .error (.duplicateName, db1)
  else
    .ok { db1 with
      recipes := db1.recipes.map (fun r =>
        if r.id == inst.id then { r with name := newName, description := newDescription }
        else r) }

/-- Embeds the detail-route object lookup of `RecipeViewSet`: the object is
fetched from `get_queryset`, which ends in `.filter(user=self.request.user)`,
so a missing id and a foreign-owned id both surface as `notFound` (HTTP
404), indistinguishably. -/
def getById (db : DB) (userId recipeId : Nat) : Except RepoError Recipe :=
  match db.recipes.find? (fun r => r.id == recipeId && r.userId == userId) with
  | none => .error .notFound
  | some r => .ok r

/-- The ownership-scoped update route (`PATCH /recipe/recipes/{id}/`):
object lookup via the user-scoped queryset, then `RecipeSerializer.update`. -/
def updateRecipe (db : DB) (userId recipeId : Nat)
    (name? description? : Option String) (ingredients? : Option (List String)) :
    Except (RepoError × DB) DB :=
  match db.recipes.find? (fun r => r.id == recipeId && r.userId == userId) with
  | none => .error (.notFound, db)
  | some inst => RecipeSerializer.update db userId inst name? description? ingredients?

/-- The ownership-scoped delete route (`DELETE /recipe/recipes/{id}/`):
object lookup via the user-scoped queryset; on success the recipe row is
removed and every ingredient row referencing it is deleted by the
`on_delete=models.CASCADE` of `Ingredient.recipe` in `recipe/models.py`. -/
def deleteRecipe (db : DB) (userId recipeId : Nat) : Except RepoError DB :=
  match db.recipes.find? (fun r => r.id == recipeId && r.userId == userId) with
  | none => .error .notFound
  | some _ =>
      .ok { db with
        recipes := db.recipes.filter (fun r => !(r.id == recipeId)),
        ingredients := db.ingredients.filter (fun ing => !(ing.recipeId == recipeId)) }

/-- Modelled from the spec: each HTTP request runs inside one storage
transaction (settings enabling per-request atomicity are not under
`src/`); on an `IntegrityError` the central handler
`core/exceptions_handler.py` calls `set_rollback()`, so the transaction
is rolled back and the caller observes the pre-request state.  The first
component is the caller-visible result, the second the state after the
request. -/
def runRequest {α : Type} (db : DB) (act : Except (RepoError × DB) (DB × α)) :
    Except RepoError α × DB :=
  match act with
  | .ok (db1, a) => (.ok a, db1)
  | .error (e, _dirty) => (.error e, db)

/-- The full `POST /recipe/recipes/` request: serializer create inside the
per-request transaction. -/
def createRequest (db : DB) (userId : Nat) (name description : String)
    (ingredients? : Option (List String)) : Except RepoError Recipe × DB :=
  runRequest db (RecipeSerializer.create db userId name description ingredients?)

/-- The full `PATCH /recipe/recipes/{id}/` request: ownership-scoped update
inside the per-request transaction. -/
def updateRequest (db : DB) (userId recipeId : Nat)
    (name? description? : Option String) (ingredients? : Option (List String)) :
    Except RepoError Unit × DB :=
  runRequest db ((updateRecipe db userId recipeId name? description? ingredients?).map
    (fun db1 => (db1, ())))

/-- Does `needle` occur at the very start of `hay`? (character-list helper
for the substring matching below). -/
def listStartsWith : List Char → List Char → Bool
  | _, [] => true
  | [], _ :: _ => false
  | c :: cs, d :: ds => c == d && listStartsWith cs ds

/-- Does `needle` occur contiguously anywhere inside the list? -/
def listContainsSeq (needle : List Char) : List Char → Bool
  | [] => listStartsWith [] needle
  | c :: cs => listStartsWith (c :: cs) needle || listContainsSeq needle cs

/-- Substring containment on strings (the `in` operator of Python and the
`contains` lookup of the ORM). -/
def strContains (s sub : String) : Bool :=
  listContainsSeq sub.data s.data

/-- The `name__icontains` lookup used in `RecipeViewSet.get_queryset`:
case-insensitive substring match (both sides lower-cased). -/
def icontains (value pat : String) : Bool :=
  listContainsSeq (pat.data.map Char.toLower) (value.data.map Char.toLower)

instance : DecidableRel (fun (a b : Recipe) => a.id ≤ b.id) :=
  fun a b => Nat.decLe a.id b.id

instance : IsTotal Recipe (fun a b => a.id ≤ b.id) :=
  ⟨fun a b => Nat.le_total a.id b.id⟩

instance : IsTrans Recipe (fun a b => a.id ≤ b.id) :=
  ⟨fun _ _ _ h1 h2 => Nat.le_trans h1 h2⟩

/-- Embeds `RecipeViewSet.get_queryset` for the list route:

* `name_search_string = self.request.query_params.get("name")` — `none`
  when the parameter is absent; the Python truthiness test
  `if name_search_string:` also skips the filter for an empty string;
* `queryset.filter(name__icontains=name_search_string)`;
* `queryset.filter(user=self.request.user).order_by("id")`. -/
def get_queryset (db : DB) (userId : Nat) (nameParam? : Option String) : List Recipe :=
  let queryset := db.recipes
  let queryset :=
    match nameParam? with
    | none => queryset
    | some s => if s == "" then queryset else queryset.filter (fun r => icontains r.name s)
  List.insertionSort (fun a b => a.id ≤ b.id)
    (queryset.filter (fun r => r.userId == userId))

/-- The request data the exception handler inspects:
`context['request'].path` and `context['request'].method`. -/
structure HttpRequest where
  path : String
  method : String
deriving DecidableEq, Repr

/-- The caller-visible view of a raised exception: whether it is a
`django.db.utils.IntegrityError`, and its `str(exc)` text. -/
structure ExcInfo where
  isIntegrityError : Bool
  text : String
deriving DecidableEq, Repr

/-- An HTTP response as built by `Response(status=..., data=...)`. -/
structure HttpResponse where
  status : Nat
  data : String
deriving DecidableEq, Repr

/-- Embeds `app_exception_handler(exc, context)` of
`core/exceptions_handler.py`.  `defaultResponse?` is the result of the
framework `exception_handler(exc, context)` (`none` for exceptions the
framework does not recognize, such as `IntegrityError`):

* when the framework handled the exception, its response is returned;
* otherwise an `IntegrityError` yields a 400 whose message is the
  user-facing duplicate-name text only when `str(exc)` mentions
  `unique_recipe_name_for_user`, the path is exactly `/recipe/recipes/`
  and the method is `POST`; every other `IntegrityError` yields the
  generic `Bad request`;
* any other unhandled exception propagates (`none`).

The `set_rollback()` side effect is modelled by `runRequest`. -/
def app_exception_handler (defaultResponse? : Option HttpResponse)
    (exc : ExcInfo) (req : HttpRequest) : Option HttpResponse :=
  match defaultResponse? with
  | some response => some response
  | none =>
    if exc.isIntegrityError then
      let message :=
        if strContains exc.text "unique_recipe_name_for_user"
            && req.path == "/recipe/recipes/"
            && req.method == "POST" then
          "Recipe with such name already exists"
        else
          "Bad request"
      some ⟨400, message⟩
    else none

/-- A row of the external user store: primary key, unique username and the
stored password hash. -/
structure StoredUser where
  id : Nat
  username : String
  passwordHash : Nat
deriving DecidableEq, Repr

/-- Modelled from the spec: the authentication backend behind Django's
`authenticate(request, username, password)` (not under `src/`) — per
spec 4.1 it "fails when no user matches or password hash mismatches",
returning the user only when a stored user carries the username and the
hash of the supplied password matches the stored one.  The hash function
is a parameter of the model. -/
def authenticate (hash : String → Nat) (users : List StoredUser)
    (username password : String) : Option StoredUser :=
  match users.find? (fun u => u.username == username) with
  | none => none
  | some u => if u.passwordHash == hash password then some u else none

/-- Outcome of `AuthTokenSerializer.validate`: either the attrs enriched
with the user, or the raised `serializers.ValidationError` (which the
framework uniformly turns into one 400 response). -/
inductive AuthResult where
  | ok (user : StoredUser)
  | validationError (msg code : String)
deriving DecidableEq, Repr

/-- Embeds `AuthTokenSerializer.validate` of `core/serializers.py`: call
`authenticate`; `if not user:` raise
`ValidationError("Unable to authenticate with provided credentials",
code="authorization")`; otherwise return the user. -/
def AuthTokenSerializer.validate (hash : String → Nat) (users : List StoredUser)
    (username password : String) : AuthResult :=
  match authenticate hash users username password with
  | some u => .ok u
  | none => .validationError "Unable to authenticate with provided credentials" "authorization"

/-! ## Helper lemmas -/

example :
    (_add_ingredients ⟨[⟨1, 1, "r", "d"⟩], [⟨1, 1, "salt", 1⟩, ⟨2, 1, "pepper", 1⟩], 2, 3⟩
      1 1 ["pepper", "sugar", "sugar"]).1.ingredients
      = [⟨2, 1, "pepper", 1⟩, ⟨3, 1, "sugar", 1⟩] := by decide

example :
    (_add_ingredients ⟨[⟨1, 1, "r", "d"⟩], [], 2, 1⟩ 1 1 ["salt", "salt"]).1.ingredients
      = [⟨1, 1, "salt", 1⟩] := by decide

example :
    (createRequest ⟨[⟨1, 1, "R", "d1"⟩], [], 2, 1⟩ 1 "R" "d2" none).1
      = .error .duplicateName := by rfl

example :
    (updateRequest ⟨[⟨1, 1, "r1", ""⟩, ⟨2, 1, "r2", ""⟩], [⟨1, 1, "salt", 1⟩], 3, 2⟩
      1 1 (some "r2") none (some [])).2
      = ⟨[⟨1, 1, "r1", ""⟩, ⟨2, 1, "r2", ""⟩], [⟨1, 1, "salt", 1⟩], 3, 2⟩ := by decide


theorem unique_recipe_name_for_user_spec (db : DB) (u : Nat) (n : String) :
    unique_recipe_name_for_user db u n = true
      ↔ ∃ r ∈ db.recipes, r.userId = u ∧ r.name = n := by
  simp [unique_recipe_name_for_user, List.any_eq_true, Bool.and_eq_true, beq_iff_eq]

theorem find_owned_eq_none (db : DB) (u i : Nat) :
    db.recipes.find? (fun r => r.id == i && r.userId == u) = none
      ↔ ∀ r ∈ db.recipes, ¬(r.id = i ∧ r.userId = u) := by
  simp [List.find?_eq_none, Bool.and_eq_true, beq_iff_eq]

/-! ## Claim theorems -/

/-- C1: `create(u, n, description)` fails with `DuplicateNameError` exactly
when user `u` already owns a recipe named `n` (a recipe named `n` owned by
another user does not trigger the failure), and any failed creation leaves
the whole database state — in particular the user's recipe count and the
fields of the existing recipe named `n` — unchanged. -/
theorem create_duplicateName_characterization (db : DB) (u : Nat) (n d : String)
    (ings? : Option (List String)) :
    ((createRequest db u n d ings?).1 = .error .duplicateName
        ↔ ∃ r ∈ db.recipes, r.userId = u ∧ r.name = n)
    ∧ (∀ e, (createRequest db u n d ings?).1 = .error e
        → (createRequest db u n d ings?).2 = db) := by
  unfold createRequest RecipeSerializer.create runRequest
  by_cases h : unique_recipe_name_for_user db u n = true
  · rw [← unique_recipe_name_for_user_spec db u n]
    simp [h]
  · rw [← unique_recipe_name_for_user_spec db u n]
    by_cases h2 : (ings?.getD []).isEmpty = true <;> simp [h, h2]

theorem create_duplicateName_witness :
    ((createRequest ⟨[⟨1, 1, "R", "d1"⟩], [], 2, 1⟩ 1 "R" "d2" none).1
        = .error .duplicateName)
    ∧ (createRequest ⟨[⟨1, 1, "R", "d1"⟩], [], 2, 1⟩ 1 "R" "d2" none).2
        = ⟨[⟨1, 1, "R", "d1"⟩], [], 2, 1⟩ :=
  ⟨(create_duplicateName_characterization ⟨[⟨1, 1, "R", "d1"⟩], [], 2, 1⟩ 1 "R" "d2" none).1.mpr
      ⟨⟨1, 1, "R", "d1"⟩, by simp, rfl, rfl⟩,
   (create_duplicateName_characterization ⟨[⟨1, 1, "R", "d1"⟩], [], 2, 1⟩ 1 "R" "d2" none).2
      .duplicateName (by rfl)⟩

/-- C5: the ownership-scoped lookup (and with it the update and delete
routes) fails with `notFound` exactly when no recipe with the requested
id is owned by the acting user — both for an id that does not exist at
all and for an id owned by a different user; the caller-visible value,
`Except.error RepoError.notFound`, is literally the same in the two
cases. -/
theorem ownership_scoped_notFound (db : DB) (u i : Nat)
    (name? descr? : Option String) (ings? : Option (List String)) :
    (getById db u i = .error .notFound
        ↔ ∀ r ∈ db.recipes, ¬(r.id = i ∧ r.userId = u))
    ∧ ((updateRequest db u i name? descr? ings?).1 = .error .notFound
        ↔ ∀ r ∈ db.recipes, ¬(r.id = i ∧ r.userId = u))
    ∧ (deleteRecipe db u i = .error .notFound
        ↔ ∀ r ∈ db.recipes, ¬(r.id = i ∧ r.userId = u)) := by
  rw [← find_owned_eq_none db u i]
  unfold getById updateRequest updateRecipe deleteRecipe runRequest
  cases hfind : db.recipes.find? (fun r => r.id == i && r.userId == u) with
  | none => simp [Except.map]
  | some inst =>
      simp only [Except.map]
      refine ⟨by simp, ?_, by simp⟩
      unfold RecipeSerializer.update
      by_cases hdup : ((match ings? with
          | none => db
          | some ingredients => (_add_ingredients db u inst.id ingredients).1).recipes.any
            (fun r => !(r.id == inst.id) && r.userId == u
              && r.name == (name?.getD inst.name))) = true <;>
        simp [hdup]

theorem ownership_scoped_notFound_witness :
    getById ⟨[⟨1, 2, "R", "d"⟩], [], 2, 1⟩ 1 1 = .error .notFound :=
  (ownership_scoped_notFound ⟨[⟨1, 2, "R", "d"⟩], [], 2, 1⟩ 1 1 none none none).1.mpr
    (by decide)

/-- C7: deleting a nonexistent, already-deleted or foreign-owned recipe id
fails with `notFound` (a second delete of the same id fails rather than
succeeding), while deleting an owned existing recipe removes the recipe
row, cascades deletion of every ingredient row of that recipe, and leaves
every other recipe and ingredient in place. -/
theorem delete_semantics (db : DB) (u i : Nat) :
    (deleteRecipe db u i = .error .notFound
        ↔ ∀ r ∈ db.recipes, ¬(r.id = i ∧ r.userId = u))
    ∧ ∀ db2 : DB, deleteRecipe db u i = .ok db2 →
        deleteRecipe db2 u i = .error .notFound
        ∧ (∀ r ∈ db2.recipes, r.id ≠ i)
        ∧ (∀ ing ∈ db2.ingredients, ing.recipeId ≠ i)
        ∧ (∀ r ∈ db.recipes, r.id ≠ i → r ∈ db2.recipes)
        ∧ (∀ ing ∈ db.ingredients, ing.recipeId ≠ i → ing ∈ db2.ingredients) := by
  constructor
  · rw [← find_owned_eq_none db u i]
    unfold deleteRecipe
    cases hfind : db.recipes.find? (fun r => r.id == i && r.userId == u) <;> simp
  · intro db2 hok
    unfold deleteRecipe at hok
    cases hfind : db.recipes.find? (fun r => r.id == i && r.userId == u) with
    | none => rw [hfind] at hok; exact absurd hok (by simp)
    | some inst =>
        rw [hfind] at hok
        simp only [Except.ok.injEq] at hok
        subst hok
        refine ⟨?_, ?_, ?_, ?_, ?_⟩
        · unfold deleteRecipe
          have : (db.recipes.filter (fun r => !(r.id == i))).find?
              (fun r => r.id == i && r.userId == u) = none := by
            rw [List.find?_eq_none]
            intro r hr
            have := (List.mem_filter.mp hr).2
            simp only [Bool.not_eq_true'] at this
            simp [this]
          simp [this]
        · intro r hr
          have := (List.mem_filter.mp hr).2
          simpa using this
        · intro ing hing
          have := (List.mem_filter.mp hing).2
          simpa using this
        · intro r hr hne
          exact List.mem_filter.mpr ⟨hr, by simpa using hne⟩
        · intro ing hing hne
          exact List.mem_filter.mpr ⟨hing, by simpa using hne⟩

theorem delete_semantics_witness :
    deleteRecipe (⟨[], [], 2, 2⟩ : DB) 1 1 = .error .notFound :=
  ((delete_semantics ⟨[⟨1, 1, "R", "d"⟩], [⟨1, 1, "salt", 1⟩], 2, 2⟩ 1 1).2
    ⟨[], [], 2, 2⟩ (by rfl)).1

/-- C8 counterexample: a duplicate-name `IntegrityError` raised on the
recipe-update path (`PATCH /recipe/recipes/7/`) is translated to the
generic `Bad request` message, not to the user-facing duplicate-name
message — the handler recognizes the collision only for `POST` to
`/recipe/recipes/`. -/
theorem duplicate_message_update_path_cex :
    app_exception_handler none
        ⟨true, "UNIQUE constraint failed: unique_recipe_name_for_user"⟩
        ⟨"/recipe/recipes/7/", "PATCH"⟩
      = some ⟨400, "Bad request"⟩
    ∧ app_exception_handler none
        ⟨true, "UNIQUE constraint failed: unique_recipe_name_for_user"⟩
        ⟨"/recipe/recipes/7/", "PATCH"⟩
      ≠ some ⟨400, "Recipe with such name already exists"⟩ := by
  constructor
  · rfl
  · decide

/-- C8 (amended): every storage-constraint violation (`IntegrityError`) the
framework handler does not already handle is translated to a 400 response;
its body is the user-facing duplicate-recipe-name message exactly when the
exception text mentions the `unique_recipe_name_for_user` constraint and
the request is a `POST` to `/recipe/recipes/` (the creation path), and the
generic `Bad request` message in every other case, including the
recipe-update path. -/
theorem integrity_error_translation (exc : ExcInfo) (req : HttpRequest)
    (h : exc.isIntegrityError = true) :
    ∃ resp : HttpResponse, app_exception_handler none exc req = some resp
      ∧ resp.status = 400
      ∧ (resp.data = "Recipe with such name already exists"
          ↔ (strContains exc.text "unique_recipe_name_for_user" = true
              ∧ req.path = "/recipe/recipes/" ∧ req.method = "POST"))
      ∧ (resp.data = "Recipe with such name already exists"
          ∨ resp.data = "Bad request") := by
  unfold app_exception_handler
  by_cases hc : (strContains exc.text "unique_recipe_name_for_user"
      && req.path == "/recipe/recipes/" && req.method == "POST") = true
  · refine ⟨⟨400, "Recipe with such name already exists"⟩, by simp [h, hc], rfl, ?_, Or.inl rfl⟩
    simp only [Bool.and_eq_true, beq_iff_eq] at hc
    simp [hc.1.1, hc.1.2, hc.2]
  · refine ⟨⟨400, "Bad request"⟩, by simp [h, hc], rfl, ?_, Or.inr rfl⟩
    simp only [Bool.and_eq_true, beq_iff_eq, not_and] at hc
    constructor
    · intro hd; exact absurd hd (by simp)
    · intro ⟨h1, h2, h3⟩; exact absurd (hc ⟨h1, h2⟩ h3) (by simp)

theorem integrity_error_translation_witness :
    ∃ resp : HttpResponse,
      app_exception_handler none ⟨true, "FOREIGN KEY constraint failed"⟩ ⟨"/recipe/recipes/", "POST"⟩
          = some resp
      ∧ resp.status = 400
      ∧ (resp.data = "Recipe with such name already exists"
          ↔ (strContains "FOREIGN KEY constraint failed" "unique_recipe_name_for_user" = true
              ∧ "/recipe/recipes/" = "/recipe/recipes/" ∧ "POST" = "POST"))
      ∧ (resp.data = "Recipe with such name already exists"
          ∨ resp.data = "Bad request") :=
  integrity_error_translation ⟨true, "FOREIGN KEY constraint failed"⟩
    ⟨"/recipe/recipes/", "POST"⟩ rfl

/-- C10: authentication fails for an unknown username and for a known
username with a wrong password, and the caller-visible failure — the
`ValidationError` with the generic message and the `authorization` code,
which the framework turns into one 400 response — is the identical value
in the two cases, so the caller cannot distinguish them. -/
theorem authenticate_failure_uniform (hash : String → Nat) (users : List StoredUser)
    (username1 password1 username2 password2 : String)
    (h1 : ∀ u ∈ users, u.username ≠ username1)
    (h2 : ∀ u ∈ users, u.username = username2 → u.passwordHash ≠ hash password2) :
    AuthTokenSerializer.validate hash users username1 password1
      = .validationError "Unable to authenticate with provided credentials" "authorization"
    ∧ AuthTokenSerializer.validate hash users username2 password2
      = AuthTokenSerializer.validate hash users username1 password1 := by
  have hn1 : authenticate hash users username1 password1 = none := by
    unfold authenticate
    have : users.find? (fun u => u.username == username1) = none := by
      rw [List.find?_eq_none]
      intro u hu
      simpa using h1 u hu
    simp [this]
  have hn2 : authenticate hash users username2 password2 = none := by
    unfold authenticate
    cases hfind : users.find? (fun u => u.username == username2) with
    | none => rfl
    | some u =>
        have hmem := List.mem_of_find?_eq_some hfind
        have hname : u.username = username2 := by
          simpa using List.find?_some hfind
        have := h2 u hmem hname
        simp [this]
  constructor
  · unfold AuthTokenSerializer.validate
    rw [hn1]
  · unfold AuthTokenSerializer.validate
    rw [hn1, hn2]

theorem runRequest_error {α : Type} (db : DB) (act : Except (RepoError × DB) (DB × α)) :
    ∀ e, (runRequest db act).1 = .error e → (runRequest db act).2 = db := by
  intro e
  cases act with
  | ok pair => simp [runRequest]
  | error pair => simp [runRequest]

/-- C4: repository writes are atomic — whenever a create or an update
request fails (in particular an update whose new name violates the
per-user uniqueness constraint after its ingredient reconciliation has
already run inside the transaction), the post-request state is exactly
the pre-request state. -/
theorem failed_write_atomic (db : DB) (u i : Nat) (n d : String)
    (name? descr? : Option String) (ingsC? ingsU? : Option (List String)) :
    (∀ e, (createRequest db u n d ingsC?).1 = .error e
        → (createRequest db u n d ingsC?).2 = db)
    ∧ (∀ e, (updateRequest db u i name? descr? ingsU?).1 = .error e
        → (updateRequest db u i name? descr? ingsU?).2 = db) :=
  ⟨runRequest_error db _, runRequest_error db _⟩

theorem failed_write_atomic_witness :
    ((updateRequest ⟨[⟨1, 1, "recipe1", ""⟩, ⟨2, 1, "recipe2", ""⟩],
        [⟨1, 1, "salt", 1⟩], 3, 2⟩ 1 1 (some "recipe2") none (some [])).1
      = .error .duplicateName)
    ∧ (updateRequest ⟨[⟨1, 1, "recipe1", ""⟩, ⟨2, 1, "recipe2", ""⟩],
        [⟨1, 1, "salt", 1⟩], 3, 2⟩ 1 1 (some "recipe2") none (some [])).2
      = ⟨[⟨1, 1, "recipe1", ""⟩, ⟨2, 1, "recipe2", ""⟩], [⟨1, 1, "salt", 1⟩], 3, 2⟩ :=
  ⟨by rfl,
   (failed_write_atomic ⟨[⟨1, 1, "recipe1", ""⟩, ⟨2, 1, "recipe2", ""⟩],
      [⟨1, 1, "salt", 1⟩], 3, 2⟩ 1 1 "x" "y" (some "recipe2") none none (some [])).2
     .duplicateName (by rfl)⟩

/-- Without the transaction boundary the failing update of the witness
scenario would have persisted its reconciliation: the serializer-level
update reaches the constraint violation with the ingredient row already
deleted from its dirty state. -/
example :
    updateRecipe ⟨[⟨1, 1, "recipe1", ""⟩, ⟨2, 1, "recipe2", ""⟩],
        [⟨1, 1, "salt", 1⟩], 3, 2⟩ 1 1 (some "recipe2") none (some [])
      = .error (.duplicateName,
          ⟨[⟨1, 1, "recipe1", ""⟩, ⟨2, 1, "recipe2", ""⟩], [], 3, 2⟩) := by rfl

theorem add_ingredients_nil_state (db : DB) (u rid : Nat) :
    ((_add_ingredients db u rid []).1.ingredients
        = db.ingredients.filter (fun ing => !(ing.recipeId == rid)))
    ∧ (_add_ingredients db u rid []).1.recipes = db.recipes := by
  unfold _add_ingredients
  by_cases h : (db.recipeIngredients rid).length > 0
  · simp only [h, if_true, List.dedup_nil, mkIngredientRows, List.append_nil]
    constructor
    · apply List.filter_congr
      intro ing _
      simp
    · trivial
  · have hcur : db.recipeIngredients rid = [] := List.length_eq_zero.mp (by omega)
    have hall : ∀ ing ∈ db.ingredients, (ing.recipeId == rid) = false := by
      intro ing hing
      by_contra hne
      have : ing ∈ db.recipeIngredients rid :=
        List.mem_filter.mpr ⟨hing, by simpa using hne⟩
      simp [hcur] at this
    simp only [h, if_false, List.dedup_nil, mkIngredientRows, List.append_nil]
    constructor
    · exact (List.filter_eq_self.mpr (fun ing hing => by simp [hall ing hing])).symm
    · trivial

theorem runRequest_map_ok (db : DB) (act : Except (RepoError × DB) DB)
    (h : (runRequest db (act.map (fun db1 => (db1, ())))).1.isOk = true) :
    ∃ db2, act = .ok db2 ∧ (runRequest db (act.map (fun db1 => (db1, ())))).2 = db2 := by
  cases act with
  | ok db2 => exact ⟨db2, rfl, rfl⟩
  | error p => simp [runRequest, Except.map, Except.isOk, Except.toBool] at h

theorem updateRequest_ok_cases (db : DB) (u i : Nat) (name? descr? : Option String)
    (ings? : Option (List String))
    (h : (updateRequest db u i name? descr? ings?).1.isOk = true) :
    ∃ inst db2, db.recipes.find? (fun r => r.id == i && r.userId == u) = some inst
      ∧ RecipeSerializer.update db u inst name? descr? ings? = .ok db2
      ∧ (updateRequest db u i name? descr? ings?).2 = db2 := by
  obtain ⟨db2, hact, hpost⟩ := runRequest_map_ok db (updateRecipe db u i name? descr? ings?) h
  unfold updateRecipe at hact
  cases hfind : db.recipes.find? (fun r => r.id == i && r.userId == u) with
  | none =>
      rw [hfind] at hact
      exact Except.noConfusion hact
  | some inst =>
      rw [hfind] at hact
      exact ⟨inst, db2, rfl, hact, hpost⟩

theorem update_empty_list_state (db : DB) (u : Nat) (inst : Recipe)
    (name? descr? : Option String) (db2 : DB)
    (h : RecipeSerializer.update db u inst name? descr? (some []) = .ok db2) :
    db2.ingredients = db.ingredients.filter (fun ing => !(ing.recipeId == inst.id)) := by
  simp only [RecipeSerializer.update] at h
  split at h
  · cases h
  · have := Except.ok.inj h
    rw [← this]
    exact (add_ingredients_nil_state db u inst.id).1

/-- C3: on update, an explicit empty ingredient list deletes every
ingredient row of the recipe while touching no other recipe's rows;
omitting the field leaves the ingredient table unchanged; on create, an
absent or empty list causes no reconciliation — the ingredient table is
unchanged and the created recipe has no ingredient rows. -/
theorem ingredients_empty_vs_absent (db : DB) (u i : Nat)
    (name? descr? : Option String) (n d : String) :
    ((updateRequest db u i name? descr? (some [])).1.isOk = true →
        ((updateRequest db u i name? descr? (some [])).2.ingredients.filter
            (fun ing => ing.recipeId == i)) = []
        ∧ ∀ ing ∈ db.ingredients, ing.recipeId ≠ i
            → ing ∈ (updateRequest db u i name? descr? (some [])).2.ingredients)
    ∧ (updateRequest db u i name? descr? none).2.ingredients = db.ingredients
    ∧ (createRequest db u n d none).2.ingredients = db.ingredients
    ∧ (createRequest db u n d (some [])).2.ingredients = db.ingredients
    ∧ (db.wf → ∀ rec : Recipe, (createRequest db u n d (some [])).1 = .ok rec →
        (createRequest db u n d (some [])).2.recipeIngredients rec.id = []) := by
  refine ⟨?_, ?_, ?_, ?_, ?_⟩
  · intro hok
    obtain ⟨inst, db2, hfind, hupd, hpost⟩ :=
      updateRequest_ok_cases db u i name? descr? (some []) hok
    have hid : inst.id = i := by
      have := List.find?_some hfind
      simp only [Bool.and_eq_true, beq_iff_eq] at this
      exact this.1
    have hing : db2.ingredients
        = db.ingredients.filter (fun ing => !(ing.recipeId == inst.id)) :=
      update_empty_list_state db u inst name? descr? db2 hupd
    rw [hid] at hing
    rw [hpost, hing]
    constructor
    · apply List.eq_nil_iff_forall_not_mem.mpr
      intro ing hmem
      have h1 := List.mem_filter.mp hmem
      have h2 := List.mem_filter.mp h1.1
      rw [h1.2] at h2
      simp at h2
    · intro ing hmem hne
      exact List.mem_filter.mpr ⟨hmem, by simpa using hne⟩
  · unfold updateRequest updateRecipe runRequest
    cases hfind : db.recipes.find? (fun r => r.id == i && r.userId == u) with
    | none => simp [Except.map]
    | some inst =>
        unfold RecipeSerializer.update
        by_cases hdup : (db.recipes.any
            (fun r => !(r.id == inst.id) && r.userId == u
              && r.name == (name?.getD inst.name))) = true <;>
          simp [Except.map, hdup]
  · unfold createRequest RecipeSerializer.create runRequest
    by_cases hu : unique_recipe_name_for_user db u n = true <;> simp [hu]
  · unfold createRequest RecipeSerializer.create runRequest
    by_cases hu : unique_recipe_name_for_user db u n = true <;> simp [hu]
  · intro hwf rec
    unfold createRequest RecipeSerializer.create runRequest
    by_cases hu : unique_recipe_name_for_user db u n = true
    · simp [hu]
    · simp only [hu, if_false, Bool.false_eq_true, Option.getD_some, List.isEmpty_nil,
        if_true, Except.ok.injEq]
      intro hok
      have hrec : rec.id = db.nextRecipeId := by
        rw [← hok]
      unfold DB.recipeIngredients
      apply List.eq_nil_iff_forall_not_mem.mpr
      intro ing hmem
      have h1 := List.mem_filter.mp hmem
      obtain ⟨r, hr, heq⟩ := hwf.2.2.2.2 ing h1.1
      have hlt := hwf.1 r hr
      have : ing.recipeId = rec.id := by simpa using h1.2
      omega

theorem ingredients_empty_vs_absent_witness :
    ((updateRequest ⟨[⟨1, 1, "R", "d"⟩], [⟨1, 1, "salt", 1⟩], 2, 2⟩
        1 1 none none (some [])).2.ingredients.filter
          (fun ing => ing.recipeId == 1)) = []
    ∧ (createRequest ⟨[⟨1, 1, "R", "d"⟩], [⟨1, 1, "salt", 1⟩], 2, 2⟩
        1 "S" "" (some [])).2.recipeIngredients 2 = [] :=
  ⟨((ingredients_empty_vs_absent ⟨[⟨1, 1, "R", "d"⟩], [⟨1, 1, "salt", 1⟩], 2, 2⟩
      1 1 none none "S" "").1 (by rfl)).1,
   (ingredients_empty_vs_absent ⟨[⟨1, 1, "R", "d"⟩], [⟨1, 1, "salt", 1⟩], 2, 2⟩
      1 1 none none "S" "").2.2.2.2 (by decide) ⟨2, 1, "S", ""⟩ (by rfl)⟩

theorem DB.ext_of_fields (a b : DB) (h1 : a.recipes = b.recipes)
    (h2 : a.ingredients = b.ingredients) (h3 : a.nextRecipeId = b.nextRecipeId)
    (h4 : a.nextIngredientId = b.nextIngredientId) : a = b := by
  cases a; cases b; simp_all

theorem mkIngredientRows_mem (u rid : Nat) :
    ∀ (names : List String) (nid : Nat) (row : Ingredient),
      row ∈ mkIngredientRows u rid nid names →
      nid ≤ row.id ∧ row.userId = u ∧ row.recipeId = rid ∧ row.name ∈ names := by
  intro names
  induction names with
  | nil => intro nid row h; simp [mkIngredientRows] at h
  | cons x xs ih =>
      intro nid row h
      rw [mkIngredientRows] at h
      rcases List.mem_cons.mp h with h1 | h1
      · subst h1
        exact ⟨Nat.le_refl _, rfl, rfl, List.mem_cons_self _ _⟩
      · obtain ⟨ha, hb, hc, hd⟩ := ih (nid + 1) row h1
        exact ⟨by omega, hb, hc, List.mem_cons_of_mem _ hd⟩

theorem mkIngredientRows_exists (u rid : Nat) :
    ∀ (names : List String) (nid : Nat) (nm : String), nm ∈ names →
      ∃ row ∈ mkIngredientRows u rid nid names, row.recipeId = rid ∧ row.name = nm := by
  intro names
  induction names with
  | nil => intro nid nm h; cases h
  | cons x xs ih =>
      intro nid nm h
      rcases List.mem_cons.mp h with h1 | h1
      · subst h1
        exact ⟨⟨nid, u, nm, rid⟩, by rw [mkIngredientRows]; exact List.mem_cons_self _ _,
          rfl, rfl⟩
      · obtain ⟨row, hmem, hr⟩ := ih (nid + 1) nm h1
        exact ⟨row, by rw [mkIngredientRows]; exact List.mem_cons_of_mem _ hmem, hr⟩

theorem mkIngredientRows_filter_len (u rid : Nat) :
    ∀ (names : List String) (nid : Nat) (nm : String),
      ((mkIngredientRows u rid nid names).filter (fun ing => ing.name == nm)).length
        = (names.filter (fun x => x == nm)).length := by
  intro names
  induction names with
  | nil => intro nid nm; rfl
  | cons x xs ih =>
      intro nid nm
      rw [mkIngredientRows, List.filter_cons, List.filter_cons]
      by_cases hx : (x == nm) = true <;> simp [hx, ih (nid + 1) nm]

theorem filter_beq_len_one {S : List String} (hS : S.Nodup) {nm : String} (h : nm ∈ S) :
    (S.filter (fun x => x == nm)).length = 1 := by
  induction S with
  | nil => cases h
  | cons x xs ih =>
      rw [List.filter_cons]
      rcases List.mem_cons.mp h with h1 | h1
      · subst h1
        rw [if_pos (by simp)]
        have hnot : xs.filter (fun x => x == nm) = [] := by
          rw [List.filter_eq_nil_iff]
          intro y hy hbeq
          have : y = nm := by simpa using hbeq
          subst this
          exact (List.nodup_cons.mp hS).1 hy
        simp [hnot]
      · have hx : (x == nm) = false := by
          apply beq_eq_false_iff_ne.mpr
          intro he
          subst he
          exact (List.nodup_cons.mp hS).1 h1
        rw [if_neg (by simp [hx])]
        exact ih (List.nodup_cons.mp hS).2 h1

theorem add_ingredients_shape (db : DB) (u rid : Nat) (T : List String) :
    ((_add_ingredients db u rid T).1.ingredients
        = db.ingredients.filter
            (fun ing => !(ing.recipeId == rid && !((T.dedup).contains ing.name)))
          ++ (_add_ingredients db u rid T).2.2)
    ∧ ((_add_ingredients db u rid T).2.1
        = (db.recipeIngredients rid).filter (fun ing => !((T.dedup).contains ing.name)))
    ∧ ((_add_ingredients db u rid T).2.2
        = mkIngredientRows u rid db.nextIngredientId
            ((T.dedup).filter
              (fun n => !(((db.recipeIngredients rid).map Ingredient.name).contains n))))
    ∧ (_add_ingredients db u rid T).1.recipes = db.recipes
    ∧ (_add_ingredients db u rid T).1.nextRecipeId = db.nextRecipeId
    ∧ (_add_ingredients db u rid T).1.nextIngredientId
        = db.nextIngredientId + (_add_ingredients db u rid T).2.2.length := by
  unfold _add_ingredients
  by_cases hc : (db.recipeIngredients rid).length > 0
  · simp only [hc, if_true]
    exact ⟨trivial, trivial, trivial, trivial, trivial, trivial⟩
  · have hcur : db.recipeIngredients rid = [] := List.length_eq_zero.mp (by omega)
    have hall : ∀ ing ∈ db.ingredients, (ing.recipeId == rid) = false := by
      intro ing hing
      by_contra hne
      have : ing ∈ db.recipeIngredients rid :=
        List.mem_filter.mpr ⟨hing, by simpa using hne⟩
      simp [hcur] at this
    simp only [hc, if_false]
    refine ⟨?_, ?_, ?_, trivial, trivial, trivial⟩
    · have h1 : db.ingredients.filter
          (fun ing => !(ing.recipeId == rid && !((T.dedup).contains ing.name)))
            = db.ingredients :=
        List.filter_eq_self.mpr (fun ing hing => by simp [hall ing hing])
      rw [h1]
    · rw [hcur]
      simp
    · have h2 : (T.dedup).filter
          (fun n => !(((db.recipeIngredients rid).map Ingredient.name).contains n))
            = T.dedup := by
        rw [hcur]
        exact List.filter_eq_self.mpr (fun n _ => by simp)
      rw [h2]

theorem keep_pred_iff (S : List String) (rid : Nat) (ing : Ingredient) :
    ((!(ing.recipeId == rid && !(S.contains ing.name))) = true)
      ↔ ¬(ing.recipeId = rid ∧ ing.name ∉ S) := by
  by_cases h1 : ing.recipeId = rid <;> by_cases h2 : ing.name ∈ S <;> simp [h1, h2]

/-- C2: reconciliation deduplicates the target names into a set `S`; among
the recipe's rows exactly those whose name is not in `S` are deleted (a row
of another recipe, or one whose name is in `S`, survives as the very same
row); exactly one fresh row — owned by the acting user and the recipe, with
a primary key distinct from every existing row — is inserted for each name
of `S` not already on the recipe; and nothing else enters the state. -/
theorem reconcile_diff_correct (db : DB) (u rid : Nat) (T : List String)
    (hwf : db.wf) :
    (∀ ing ∈ db.ingredients,
        (ing ∈ (_add_ingredients db u rid T).1.ingredients
          ↔ ¬(ing.recipeId = rid ∧ ing.name ∉ T.dedup)))
    ∧ (∀ ing, ing ∈ (_add_ingredients db u rid T).2.1
          ↔ ing ∈ db.ingredients ∧ ing.recipeId = rid ∧ ing.name ∉ T.dedup)
    ∧ (∀ ing ∈ (_add_ingredients db u rid T).1.ingredients,
          ing ∈ db.ingredients ∨ ing ∈ (_add_ingredients db u rid T).2.2)
    ∧ (∀ nm ∈ T.dedup, nm ∉ (db.recipeIngredients rid).map Ingredient.name →
          (((_add_ingredients db u rid T).2.2).filter
            (fun ing => ing.name == nm)).length = 1)
    ∧ (∀ ing ∈ (_add_ingredients db u rid T).2.2,
          ing.name ∈ T.dedup
          ∧ ing.name ∉ (db.recipeIngredients rid).map Ingredient.name
          ∧ ing.userId = u ∧ ing.recipeId = rid
          ∧ ∀ old ∈ db.ingredients, ing.id ≠ old.id) := by
  obtain ⟨hing_eq, hdel_eq, hcre_eq, _, _, _⟩ := add_ingredients_shape db u rid T
  have hwfing : ∀ ing ∈ db.ingredients, ing.id < db.nextIngredientId := hwf.2.2.1
  have hcre_facts : ∀ ing ∈ (_add_ingredients db u rid T).2.2,
      db.nextIngredientId ≤ ing.id ∧ ing.userId = u ∧ ing.recipeId = rid
      ∧ ing.name ∈ (T.dedup).filter
          (fun n => !(((db.recipeIngredients rid).map Ingredient.name).contains n)) := by
    intro ing hing
    rw [hcre_eq] at hing
    exact mkIngredientRows_mem u rid _ db.nextIngredientId ing hing
  refine ⟨?_, ?_, ?_, ?_, ?_⟩
  · intro ing hing
    constructor
    · intro hpost
      rw [hing_eq] at hpost
      rcases List.mem_append.mp hpost with hkeep | hcre
      · exact (keep_pred_iff (T.dedup) rid ing).mp (List.mem_filter.mp hkeep).2
      · obtain ⟨hge, _, _, _⟩ := hcre_facts ing hcre
        have := hwfing ing hing
        omega
    · intro hne
      rw [hing_eq]
      exact List.mem_append.mpr (Or.inl (List.mem_filter.mpr
        ⟨hing, (keep_pred_iff (T.dedup) rid ing).mpr hne⟩))
  · intro ing
    rw [hdel_eq]
    constructor
    · intro hmem
      have h1 := List.mem_filter.mp hmem
      have h2 := List.mem_filter.mp h1.1
      refine ⟨h2.1, by simpa using h2.2, ?_⟩
      have h3 := h1.2
      simp at h3
      exact fun hmem => h3 (List.mem_dedup.mp hmem)
    · intro ⟨hm, hr, hn⟩
      exact List.mem_filter.mpr
        ⟨List.mem_filter.mpr ⟨hm, by simp [hr]⟩, by simpa using hn⟩
  · intro ing hpost
    rw [hing_eq] at hpost
    rcases List.mem_append.mp hpost with hkeep | hcre
    · exact Or.inl (List.mem_filter.mp hkeep).1
    · exact Or.inr hcre
  · intro nm hnmS hnmC
    rw [hcre_eq, mkIngredientRows_filter_len]
    apply filter_beq_len_one
    · exact (List.nodup_dedup T).filter _
    · exact List.mem_filter.mpr ⟨hnmS, by simpa using hnmC⟩
  · intro ing hcre
    obtain ⟨hge, huid, hrid, hnm⟩ := hcre_facts ing hcre
    have h1 := List.mem_filter.mp hnm
    refine ⟨h1.1, by simpa using h1.2, huid, hrid, ?_⟩
    intro old hold
    have := hwfing old hold
    omega

theorem reconcile_diff_correct_witness :
    (((_add_ingredients ⟨[⟨1, 1, "R", "d"⟩], [⟨1, 1, "salt", 1⟩, ⟨2, 1, "pepper", 1⟩], 2, 3⟩
        1 1 ["pepper", "sugar", "sugar"]).2.2).filter
          (fun ing => ing.name == "sugar")).length = 1 :=
  (reconcile_diff_correct ⟨[⟨1, 1, "R", "d"⟩], [⟨1, 1, "salt", 1⟩, ⟨2, 1, "pepper", 1⟩], 2, 3⟩
      1 1 ["pepper", "sugar", "sugar"] (by decide)).2.2.2.1
    "sugar" (by decide) (by decide)

theorem add_ingredients_post (db : DB) (u rid : Nat) (T : List String) :
    (∀ ing ∈ (_add_ingredients db u rid T).1.ingredients,
        ing.recipeId = rid → ing.name ∈ T.dedup)
    ∧ (∀ nm ∈ T.dedup, ∃ ing ∈ (_add_ingredients db u rid T).1.ingredients,
        ing.recipeId = rid ∧ ing.name = nm) := by
  obtain ⟨hing_eq, _, hcre_eq, _, _, _⟩ := add_ingredients_shape db u rid T
  constructor
  · intro ing hpost hrid
    rw [hing_eq] at hpost
    rcases List.mem_append.mp hpost with hkeep | hcre
    · have hp := (List.mem_filter.mp hkeep).2
      simp [hrid] at hp
      exact List.mem_dedup.mpr hp
    · rw [hcre_eq] at hcre
      have := (mkIngredientRows_mem u rid _ db.nextIngredientId ing hcre).2.2.2
      exact (List.mem_filter.mp this).1
  · intro nm hnm
    by_cases hC : nm ∈ (db.recipeIngredients rid).map Ingredient.name
    · obtain ⟨row, hrow, hname⟩ := List.mem_map.mp hC
      have hcur := List.mem_filter.mp hrow
      refine ⟨row, ?_, by simpa using hcur.2, hname⟩
      rw [hing_eq]
      refine List.mem_append.mpr (Or.inl (List.mem_filter.mpr ⟨hcur.1, ?_⟩))
      simp [hname, hnm]
    · have hmemT : nm ∈ (T.dedup).filter
          (fun n => !(((db.recipeIngredients rid).map Ingredient.name).contains n)) :=
        List.mem_filter.mpr ⟨hnm, by simpa using hC⟩
      obtain ⟨row, hrow, hrid, hname⟩ :=
        mkIngredientRows_exists u rid _ db.nextIngredientId nm hmemT
      refine ⟨row, ?_, hrid, hname⟩
      rw [hing_eq, hcre_eq]
      exact List.mem_append.mpr (Or.inr hrow)

/-- C9: reconciliation is idempotent — running `_add_ingredients` a second
time with the identical target list leaves the database state exactly as
the first run left it and performs no deletion and no creation at all. -/
theorem reconcile_idempotent (db : DB) (u rid : Nat) (T : List String) :
    (_add_ingredients (_add_ingredients db u rid T).1 u rid T).1
        = (_add_ingredients db u rid T).1
    ∧ (_add_ingredients (_add_ingredients db u rid T).1 u rid T).2.1 = []
    ∧ (_add_ingredients (_add_ingredients db u rid T).1 u rid T).2.2 = [] := by
  obtain ⟨hforward, hcover⟩ := add_ingredients_post db u rid T
  obtain ⟨hing2, hdel2, hcre2, hrec2, hnrid2, hniid2⟩ :=
    add_ingredients_shape (_add_ingredients db u rid T).1 u rid T
  have hdel : (_add_ingredients (_add_ingredients db u rid T).1 u rid T).2.1 = [] := by
    rw [hdel2, List.filter_eq_nil_iff]
    intro ing hing
    have h1 := List.mem_filter.mp hing
    have h2 : ing.name ∈ T.dedup := hforward ing h1.1 (by simpa using h1.2)
    simp [h2]
  have hcre : (_add_ingredients (_add_ingredients db u rid T).1 u rid T).2.2 = [] := by
    rw [hcre2]
    have hfil : (T.dedup).filter
        (fun n => !((((_add_ingredients db u rid T).1.recipeIngredients rid).map
            Ingredient.name).contains n)) = [] := by
      rw [List.filter_eq_nil_iff]
      intro nm hnm hb
      obtain ⟨ing, hmem, hrid, hname⟩ := hcover nm hnm
      have hmm : nm ∈ ((_add_ingredients db u rid T).1.recipeIngredients rid).map
          Ingredient.name :=
        List.mem_map.mpr ⟨ing, List.mem_filter.mpr ⟨hmem, by simp [hrid]⟩, hname⟩
      simp [hmm] at hb
    rw [hfil]
    rfl
  have hkeep : (_add_ingredients db u rid T).1.ingredients.filter
      (fun ing => !(ing.recipeId == rid && !((T.dedup).contains ing.name)))
        = (_add_ingredients db u rid T).1.ingredients := by
    rw [List.filter_eq_self]
    intro ing hing
    by_cases hr : ing.recipeId = rid
    · simp [hforward ing hing hr]
    · simp [beq_eq_false_iff_ne.mpr hr]
  refine ⟨?_, hdel, hcre⟩
  apply DB.ext_of_fields
  · rw [hrec2]
  · rw [hing2, hkeep, hcre, List.append_nil]
  · rw [hnrid2]
  · rw [hniid2, hcre]
    simp

theorem reconcile_idempotent_witness :
    (_add_ingredients (_add_ingredients ⟨[⟨1, 1, "R", "d"⟩], [⟨1, 1, "salt", 1⟩], 2, 2⟩
        1 1 ["pepper"]).1 1 1 ["pepper"]).2.2 = [] :=
  (reconcile_idempotent ⟨[⟨1, 1, "R", "d"⟩], [⟨1, 1, "salt", 1⟩], 2, 2⟩ 1 1 ["pepper"]).2.2

theorem listContainsSeq_nil (l : List Char) : listContainsSeq [] l = true := by
  cases l <;> simp [listContainsSeq, listStartsWith]

theorem icontains_empty (v : String) : icontains v "" = true := by
  unfold icontains
  have h : ("".data.map Char.toLower) = [] := by decide
  rw [h]
  exact listContainsSeq_nil _

/-- C6: the list route returns a permutation of exactly the acting user's
recipes (never another user's), restricted to case-insensitive substring
matches on the name when the `name` parameter is given, and the returned
sequence is ordered by identifier ascending. -/
theorem list_scoped_filtered_sorted (db : DB) (u : Nat) (ns? : Option String) :
    (get_queryset db u ns?).Perm
      (db.recipes.filter (fun r => r.userId == u
        && (match ns? with | none => true | some s => icontains r.name s)))
    ∧ (get_queryset db u ns?).Sorted (fun a b => a.id ≤ b.id)
    ∧ (∀ r ∈ get_queryset db u ns?, r.userId = u) := by
  have hperm : (get_queryset db u ns?).Perm
      (db.recipes.filter (fun r => r.userId == u
        && (match ns? with | none => true | some s => icontains r.name s))) := by
    cases ns? with
    | none =>
        have he : db.recipes.filter (fun r => r.userId == u)
            = db.recipes.filter (fun r => r.userId == u && true) :=
          List.filter_congr (fun a _ => by simp)
        exact he ▸ List.perm_insertionSort _ _
    | some s =>
        by_cases hs : (s == "") = true
        · have hs' : s = "" := by simpa using hs
          subst hs'
          have he : db.recipes.filter (fun r => r.userId == u)
              = db.recipes.filter (fun r => r.userId == u && icontains r.name "") :=
            List.filter_congr (fun a _ => by simp [icontains_empty])
          exact he ▸ List.perm_insertionSort _ _
        · simp only [get_queryset]
          rw [if_neg hs]
          have he : (db.recipes.filter (fun r => icontains r.name s)).filter
                (fun r => r.userId == u)
              = db.recipes.filter (fun r => r.userId == u && icontains r.name s) := by
            rw [List.filter_filter]
          exact he ▸ List.perm_insertionSort _ _
  refine ⟨hperm, List.sorted_insertionSort _ _, ?_⟩
  intro r hr
  have hmem := hperm.mem_iff.mp hr
  have := (List.mem_filter.mp hmem).2
  simp only [Bool.and_eq_true, beq_iff_eq] at this
  exact this.1

theorem list_scoped_filtered_sorted_witness :
    (get_queryset ⟨[⟨1, 1, "Rcp 1", ""⟩, ⟨2, 1, "Rcp 2", ""⟩, ⟨3, 2, "Rcp 3", ""⟩],
        [], 4, 1⟩ 1 none).Perm
      [⟨1, 1, "Rcp 1", ""⟩, ⟨2, 1, "Rcp 2", ""⟩] :=
  (list_scoped_filtered_sorted
    ⟨[⟨1, 1, "Rcp 1", ""⟩, ⟨2, 1, "Rcp 2", ""⟩, ⟨3, 2, "Rcp 3", ""⟩], [], 4, 1⟩ 1 none).1

theorem authenticate_failure_uniform_witness :
    AuthTokenSerializer.validate String.length [⟨1, "alice", 8⟩] "bob" "goodpass"
      = .validationError "Unable to authenticate with provided credentials" "authorization"
    ∧ AuthTokenSerializer.validate String.length [⟨1, "alice", 8⟩] "alice" "bad"
      = AuthTokenSerializer.validate String.length [⟨1, "alice", 8⟩] "bob" "goodpass" :=
  authenticate_failure_uniform String.length [⟨1, "alice", 8⟩] "bob" "goodpass" "alice" "bad"
    (by decide) (by decide)
